import Mathlib

/-!
Verification of the langgraphjs-examples repository.

The repository contains four example agent graphs built on a state-graph
framework.  We shallowly embed the parts the specification's claims are
about:

* the countdown graph of `src/simple-counter.agent.ts` (state with a
  `number` and a `history` field, nodes `subtract_five` / `subtract_one`,
  conditional router `routeCountdown`);
* its sibling in the unnamed counter example (`routingFunction`);
* the agent-loop router `shouldContinue` of `src/browser-tool.agent.ts`;
* the calculator tools `addTool` / `subtractTool` and the tool-dispatch
  node of the calculator agent;
* the generic state-merge semantics (per-field reducers, schema check)
  that the spec defines for the graph engine.

JavaScript numbers in the examples are only ever used at integer values,
so numeric state is embedded as `Int`.
-/

namespace LangGraphExamples

/-! ## Countdown graph (`simple-counter.agent.ts`) -/

/-- The countdown graph's state: `Annotation.Root` with a `number` field and
a `history : number[]` field (both with the default overwrite reducer). -/
structure CountdownState where
  number : Int
  history : List Int
  deriving Repr, DecidableEq

/-- Node `subtract_five`: computes `newNumber = state.number - 5` and returns
the update with `number = newNumber` and `history = [...state.history, newNumber]`.
Both fields are overwrite fields, so applying the update to the state
yields exactly this state. -/
def subtractFive (s : CountdownState) : CountdownState :=
  { number := s.number - 5, history := s.history ++ [s.number - 5] }

/-- Node `subtract_one`: computes `newNumber = state.number - 1` and returns
the update with `number = newNumber` and `history = [...state.history, newNumber]`. -/
def subtractOne (s : CountdownState) : CountdownState :=
  { number := s.number - 1, history := s.history ++ [s.number - 1] }

/-- The three destinations the countdown router may return:
the node names `subtract_five` and `subtract_one`, and the `END` sentinel. -/
inductive CountdownRoute where
  | subtract_five
  | subtract_one
  | end_
  deriving Repr, DecidableEq

/-- `routeCountdown` from `simple-counter.agent.ts`:
`if (state.number > 10) return "subtract_five";
 if (state.number > 0) return "subtract_one";
 return END;` -/
def routeCountdown (s : CountdownState) : CountdownRoute :=
  if s.number > 10 then .subtract_five
  else if s.number > 0 then .subtract_one
  else .end_

/-- `routingFunction` from the unnamed counter example:
`if (number > 10) return "subtract5";
 if (number <= 10 && number > 0) return "subtract1";
 return END;`  (node names differ, routing behaviour is embedded on the
same three destinations). -/
def routingFunction (s : CountdownState) : CountdownRoute :=
  if s.number > 10 then .subtract_five
  else if s.number ≤ 10 ∧ s.number > 0 then .subtract_one
  else .end_

/-- One engine step of the countdown graph: ask the router for the next
destination and run that node; `none` means the router returned `END`. -/
def stepCountdown (s : CountdownState) : Option CountdownState :=
  match routeCountdown s with
  | .subtract_five => some (subtractFive s)
  | .subtract_one => some (subtractOne s)
  | .end_ => none

/-- The engine loop of `graph.invoke`: route from the current state, run the
chosen node, merge (both fields overwrite, so the node result is the new
state) and repeat until the router returns `END`.  Total by well-founded
recursion: the routed field strictly decreases while positive. -/
def runCountdown (s : CountdownState) : CountdownState :=
  if s.number > 10 then runCountdown (subtractFive s)
  else if s.number > 0 then runCountdown (subtractOne s)
  else s
termination_by s.number.toNat
decreasing_by
  · simp [subtractFive]; omega
  · simp [subtractOne]; omega

/-- Number of node executions (= history entries appended) of a countdown
run starting from `number = n`. -/
def countSteps (n : Int) : Nat :=
  if n > 10 then countSteps (n - 5) + 1
  else if n > 0 then countSteps (n - 1) + 1
  else 0
termination_by n.toNat
decreasing_by
  · omega
  · omega

/-- The sequence of values a countdown run starting from `number = n`
appends to the history: each step appends the new number it computed. -/
def traceFrom (n : Int) : List Int :=
  if n > 10 then (n - 5) :: traceFrom (n - 5)
  else if n > 0 then (n - 1) :: traceFrom (n - 1)
  else []
termination_by n.toNat
decreasing_by
  · omega
  · omega

/-- The engine loop with explicit fuel: performs at most `fuel` node
executions and returns `none` if the router has still not returned `END`.
Used to evaluate runs concretely. -/
def runFuel : Nat → CountdownState → Option CountdownState
  | 0, s => match stepCountdown s with
    | none => some s
    | some _ => none
  | fuel + 1, s => match stepCountdown s with
    | none => some s
    | some t => runFuel fuel t

/-! ## Values, tool calls and messages -/

/-- A JSON-like runtime value: the examples only ever use numbers, strings
and arrays.  Numeric values are embedded as integers. -/
inductive Value where
  | int (n : Int)
  | str (s : String)
  | list (vs : List Value)
  deriving Repr

/-- First-match lookup in an association list of named values (the embedding
of a JavaScript object as a key/value list). -/
def lookupVal : List (String × Value) → String → Option Value
  | [], _ => none
  | kv :: rest, k => if kv.1 = k then some kv.2 else lookupVal rest k

/-- A requested tool call: tool name, argument object and call id. -/
structure ToolCall where
  name : String
  args : List (String × Value)
  id : String
  deriving Repr

/-- A chat message as the agent-loop routers see it: content plus the
optional `tool_calls` list of an assistant message (`none` embeds a message
on which the field is absent). -/
structure ChatMessage where
  content : String
  tool_calls : Option (List ToolCall)
  deriving Repr

/-- The two destinations of the agent-loop routers: the `tools` node and the
`END` sentinel. -/
inductive AgentRoute where
  | tools
  | end_
  deriving Repr, DecidableEq

/-- `shouldContinue` from `browser-tool.agent.ts`: reads the last message of
the state and returns `"tools"` when `lastMessage.tool_calls?.length` is
truthy (the field is present and the list non-empty), `END` otherwise.
The same routing is `routeAfterAgent` in the calculator example, which spells
the presence test as membership plus an array check. -/
def shouldContinue (messages : List ChatMessage) (h : messages ≠ []) : AgentRoute :=
  let lastMessage := messages.getLast h
  match lastMessage.tool_calls with
  | some calls => if calls.length ≠ 0 then .tools else .end_
  | none => .end_

/-! ## Calculator tools and tool dispatch -/

/-- The `add` tool's function: destructures its two numeric arguments and returns `a + b`. -/
def addTool (a b : Int) : Int := a + b

/-- The `subtract` tool's function: destructures its two numeric arguments and returns `a - b`. -/
def subtractTool (a b : Int) : Int := a - b

/-- Errors of the tool dispatcher (spec section 7). -/
inductive ToolError where
  | unknownTool (name : String)
  | argumentValidation (name : String)
  deriving Repr, DecidableEq

/-- A tool-role result message: result value plus the id of the call it
answers. -/
structure ToolResultMessage where
  content : Value
  tool_call_id : String
  deriving Repr

/-- Reads a numeric argument from a call's argument object, `none` when the
field is absent or not a number (the zod schemas of the calculator tools
declare both arguments as numbers). -/
def getNumberArg (args : List (String × Value)) (k : String) : Option Int :=
  match lookupVal args k with
  | some (.int n) => some n
  | _ => none

/-- Modelled from the spec: execution of one requested call by the `ToolNode`
of the calculator agent (the `ToolNode` class itself is framework code not in
the repository).  Spec section 4.4: look up the tool by name (`add` and
`subtract` are the registered tools), validate the arguments against the
declared schema, invoke the tool function and tag the result with the
originating call id. -/
def runToolCall (c : ToolCall) : Except ToolError ToolResultMessage :=
  if c.name = "add" then
    match getNumberArg c.args "a", getNumberArg c.args "b" with
    | some a, some b => .ok ⟨.int (addTool a b), c.id⟩
    | _, _ => .error (.argumentValidation c.name)
  else if c.name = "subtract" then
    match getNumberArg c.args "a", getNumberArg c.args "b" with
    | some a, some b => .ok ⟨.int (subtractTool a b), c.id⟩
    | _, _ => .error (.argumentValidation c.name)
  else .error (.unknownTool c.name)

/-- Modelled from the spec: the dispatch loop of the calculator `ToolNode`
(spec section 4.4) — one result message per requested call, in request
order; the first failing call aborts the dispatch. -/
def toolNodeDispatch : List ToolCall → Except ToolError (List ToolResultMessage)
  | [] => .ok []
  | c :: rest =>
    match runToolCall c with
    | .error e => .error e
    | .ok r =>
      match toolNodeDispatch rest with
      | .error e => .error e
      | .ok rs => .ok (r :: rs)

/-! ## Generic state merge (spec sections 4.1 and 4.2)

The per-field reducer merge and the schema check live in the framework, not
in the repository; the definitions below are modelled from the spec. -/

/-- A field's reducer: overwrite (the default) or append-to-sequence. -/
inductive Reducer where
  | overwrite
  | append
  deriving Repr, DecidableEq

/-- The field names a schema declares. -/
def schemaKeys (schema : List (String × Reducer)) : List String :=
  schema.map Prod.fst

/-- The reducer a schema declares for a field, `none` when the field is
undeclared. -/
def reducerOf (schema : List (String × Reducer)) (k : String) : Option Reducer :=
  (schema.find? (fun f => f.1 == k)).map Prod.snd

/-- A value as a sequence (append fields hold sequences; a bare value counts
as a one-element sequence, as the framework's message reducer does). -/
def asSeq : Value → List Value
  | .list vs => vs
  | v => [v]

/-- Modelled from the spec: merging one field's update into its current
value (spec section 4.1) — overwrite replaces, append concatenates the
update's sequence onto the current sequence in order, no deduplication. -/
def mergeVals : Reducer → Option Value → Value → Value
  | .overwrite, _, v => v
  | .append, none, v => .list (asSeq v)
  | .append, some cur, v => .list (asSeq cur ++ asSeq v)

/-- Modelled from the spec: the merged entry a declared field `f` gets, from
the current state `cur` and the node's returned update `upd`; `none` when
the field is still unset. -/
def mergedEntry (cur upd : List (String × Value)) (f : String × Reducer) :
    Option (String × Value) :=
  match lookupVal upd f.1 with
  | some v => some (f.1, mergeVals f.2 (lookupVal cur f.1) v)
  | none => (lookupVal cur f.1).map (fun v => (f.1, v))

/-- Modelled from the spec: the merge of an update into the current state,
field by field over the schema (spec section 4.1). -/
def doMerge (schema : List (String × Reducer)) (cur upd : List (String × Value)) :
    List (String × Value) :=
  schema.filterMap (mergedEntry cur upd)

/-- Modelled from the spec: the checked merge — an update touching an
undeclared field is a `SchemaViolation`, not silently ignored (spec
sections 4.1 and 7). -/
def mergeChecked (schema : List (String × Reducer))
    (cur upd : List (String × Value)) :
    Except String (List (String × Value)) :=
  if upd.all (fun kv => (reducerOf schema kv.1).isSome) then
    .ok (doMerge schema cur upd)
  else .error "SchemaViolation"

/-- Modelled from the spec: the engine running a fixed chain of nodes (spec
section 4.2) — each step runs the node on the current state and merges its
returned update; a failing merge aborts the whole invocation, and the error
carries the state as it stood before the failing step (no partial
mutation). -/
def invokeSeq (schema : List (String × Reducer)) :
    List (List (String × Value) → List (String × Value)) →
    List (String × Value) →
    Except (String × List (String × Value)) (List (String × Value))
  | [], st => .ok st
  | node :: rest, st =>
    match mergeChecked schema st (node st) with
    | .error e => .error (e, st)
    | .ok st2 => invokeSeq schema rest st2

/-! ## Lemmas about the countdown graph -/

theorem runCountdown_end {s : CountdownState} (h : s.number ≤ 0) :
    runCountdown s = s := by
  unfold runCountdown
  rw [if_neg (by omega), if_neg (by omega)]

theorem runCountdown_five {s : CountdownState} (h : s.number > 10) :
    runCountdown s = runCountdown (subtractFive s) := by
  conv_lhs => unfold runCountdown
  rw [if_pos h]

theorem runCountdown_one {s : CountdownState} (h1 : ¬ s.number > 10)
    (h2 : s.number > 0) : runCountdown s = runCountdown (subtractOne s) := by
  conv_lhs => unfold runCountdown
  rw [if_neg h1, if_pos h2]

/-- The loop follows the router: `runCountdown` is the fixpoint of
dispatching on `routeCountdown`. -/
theorem runCountdown_follows_router (s : CountdownState) :
    runCountdown s =
      match routeCountdown s with
      | .subtract_five => runCountdown (subtractFive s)
      | .subtract_one => runCountdown (subtractOne s)
      | .end_ => s := by
  by_cases h1 : s.number > 10
  · rw [runCountdown_five h1]
    simp [routeCountdown, h1]
  · by_cases h2 : s.number > 0
    · rw [runCountdown_one h1 h2]
      simp [routeCountdown, h1, h2]
    · rw [runCountdown_end (by omega)]
      simp [routeCountdown, h1, h2]

/-- With enough fuel, the fuelled engine loop computes `runCountdown`. -/
theorem runFuel_complete :
    ∀ (fuel : Nat) (s : CountdownState), s.number.toNat ≤ fuel →
      runFuel fuel s = some (runCountdown s) := by
  intro fuel
  induction fuel with
  | zero =>
    intro s hs
    have hn : s.number ≤ 0 := by omega
    rw [runCountdown_end hn]
    have h1 : ¬ s.number > 10 := by omega
    have h2 : ¬ s.number > 0 := by omega
    simp [runFuel, stepCountdown, routeCountdown, h1, h2]
  | succ n ih =>
    intro s hs
    by_cases h1 : s.number > 10
    · rw [runCountdown_five h1]
      have := ih (subtractFive s) (by simp [subtractFive]; omega)
      simp [runFuel, stepCountdown, routeCountdown, h1, this]
    · by_cases h2 : s.number > 0
      · rw [runCountdown_one h1 h2]
        have := ih (subtractOne s) (by simp [subtractOne]; omega)
        simp [runFuel, stepCountdown, routeCountdown, h1, h2, this]
      · rw [runCountdown_end (by omega)]
        simp [runFuel, stepCountdown, routeCountdown, h1, h2]

theorem countSteps_nonpos {n : Int} (h : n ≤ 0) : countSteps n = 0 := by
  rw [countSteps, if_neg (by omega), if_neg (by omega)]

theorem runCountdown_nonpos (s : CountdownState) : (runCountdown s).number ≤ 0 := by
  induction s using runCountdown.induct with
  | case1 s h ih => rw [runCountdown, if_pos h]; exact ih
  | case2 s h1 h2 ih => rw [runCountdown, if_neg h1, if_pos h2]; exact ih
  | case3 s h1 h2 => rw [runCountdown, if_neg h1, if_neg h2]; omega

theorem runCountdown_number_pos (s : CountdownState) (h : 0 < s.number) :
    (runCountdown s).number = 0 := by
  induction s using runCountdown.induct with
  | case1 s h10 ih =>
    rw [runCountdown, if_pos h10]
    exact ih (by simp [subtractFive]; omega)
  | case2 s h1 h2 ih =>
    rw [runCountdown, if_neg h1, if_pos h2]
    by_cases hone : s.number = 1
    · rw [runCountdown_end (by simp [subtractOne]; omega)]
      simp [subtractOne, hone]
    · exact ih (by simp [subtractOne]; omega)
  | case3 s h1 h2 => omega

theorem runCountdown_history (s : CountdownState) :
    (runCountdown s).history = s.history ++ traceFrom s.number := by
  induction s using runCountdown.induct with
  | case1 s h ih =>
    rw [runCountdown, if_pos h, traceFrom, if_pos h]
    rw [ih]
    simp [subtractFive]
  | case2 s h1 h2 ih =>
    rw [runCountdown, if_neg h1, if_pos h2, traceFrom, if_neg h1, if_pos h2]
    rw [ih]
    simp [subtractOne]
  | case3 s h1 h2 =>
    rw [runCountdown, if_neg h1, if_neg h2, traceFrom, if_neg h1, if_neg h2]
    simp

theorem traceFrom_length (n : Int) : (traceFrom n).length = countSteps n := by
  induction n using traceFrom.induct with
  | case1 n h ih => rw [traceFrom, if_pos h, countSteps, if_pos h]; simp [ih]
  | case2 n h1 h2 ih =>
    rw [traceFrom, if_neg h1, if_pos h2, countSteps, if_neg h1, if_pos h2]
    simp [ih]
  | case3 n h1 h2 =>
    rw [traceFrom, if_neg h1, if_neg h2, countSteps, if_neg h1, if_neg h2]
    simp

theorem traceFrom_ne_nil {n : Int} (h : 0 < n) : traceFrom n ≠ [] := by
  rw [traceFrom]
  by_cases h10 : n > 10
  · simp [h10]
  · simp [h10, h]

theorem traceFrom_getLast {n : Int} (h : 0 < n) :
    (traceFrom n).getLast? = some 0 := by
  induction n using traceFrom.induct with
  | case1 n h10 ih =>
    rw [traceFrom, if_pos h10]
    have h5 : 0 < n - 5 := by omega
    rw [show (n - 5) :: traceFrom (n - 5) = [n - 5] ++ traceFrom (n - 5) by simp]
    rw [List.getLast?_append_of_ne_nil _ (traceFrom_ne_nil h5)]
    exact ih h5
  | case2 n h1 h2 ih =>
    rw [traceFrom, if_neg h1, if_pos h2]
    by_cases hone : n = 1
    · subst hone
      rw [show (1 - 1 : Int) = 0 by norm_num]
      rw [traceFrom, if_neg (by omega), if_neg (by omega)]
      rfl
    · have h0 : 0 < n - 1 := by omega
      rw [show (n - 1) :: traceFrom (n - 1) = [n - 1] ++ traceFrom (n - 1) by simp]
      rw [List.getLast?_append_of_ne_nil _ (traceFrom_ne_nil h0)]
      exact ih h0
  | case3 n h1 h2 => omega

theorem countSteps_small {n : Int} (h0 : 0 < n) (h10 : n ≤ 10) :
    countSteps n = n.toNat := by
  induction n using countSteps.induct with
  | case1 n h ih => omega
  | case2 n h1 h2 ih =>
    rw [countSteps, if_neg h1, if_pos h2]
    by_cases hone : n = 1
    · rw [countSteps_nonpos (by omega)]
      omega
    · rw [ih (by omega) (by omega)]
      omega
  | case3 n h1 h2 => omega

theorem countSteps_closed {n : Int} (h : 10 < n) :
    countSteps n = (n.toNat - 6) / 5 + (n.toNat - 5 * ((n.toNat - 6) / 5)) := by
  induction n using countSteps.induct with
  | case1 n h10 ih =>
    rw [countSteps, if_pos h10]
    by_cases h15 : 10 < n - 5
    · rw [ih h15]
      omega
    · rw [countSteps_small (by omega) (by omega)]
      omega
  | case2 n h1 h2 ih => omega
  | case3 n h1 h2 => omega

/-- Concrete evaluation of the countdown run from the `main` input 57. -/
theorem runCountdown_57 :
    runCountdown ⟨57, []⟩ =
      ⟨0, [52, 47, 42, 37, 32, 27, 22, 17, 12, 7, 6, 5, 4, 3, 2, 1, 0]⟩ := by
  have h := runFuel_complete 57 ⟨57, []⟩ (by decide)
  have h2 : runFuel 57 ⟨57, []⟩ =
      some ⟨0, [52, 47, 42, 37, 32, 27, 22, 17, 12, 7, 6, 5, 4, 3, 2, 1, 0]⟩ := by
    rfl
  rw [h2] at h
  exact (Option.some.inj h).symm

/-! ## Lemmas about the state merge -/

theorem mergedEntry_key {cur upd : List (String × Value)} {f : String × Reducer}
    {e : String × Value} (h : mergedEntry cur upd f = some e) : e.1 = f.1 := by
  unfold mergedEntry at h
  cases hu : lookupVal upd f.1 with
  | some v => rw [hu] at h; simp at h; simp [← h]
  | none =>
    rw [hu] at h
    cases hc : lookupVal cur f.1 with
    | some v => rw [hc] at h; simp at h; simp [← h]
    | none => rw [hc] at h; simp at h

theorem lookupVal_doMerge_not_mem {schema : List (String × Reducer)}
    {cur upd : List (String × Value)} {k : String}
    (h : k ∉ schemaKeys schema) :
    lookupVal (doMerge schema cur upd) k = none := by
  induction schema with
  | nil => rfl
  | cons f rest ih =>
    rw [schemaKeys, List.map_cons] at h
    simp only [List.mem_cons, not_or] at h
    have hrest : k ∉ schemaKeys rest := h.2
    rw [doMerge, List.filterMap_cons]
    cases he : mergedEntry cur upd f with
    | none => exact ih hrest
    | some e =>
      have hk := mergedEntry_key he
      rw [lookupVal, if_neg (by rw [hk]; exact fun hkk => h.1 hkk.symm)]
      exact ih hrest

theorem lookupVal_doMerge {schema : List (String × Reducer)}
    {cur upd : List (String × Value)} {k : String} {r : Reducer}
    (hnd : (schemaKeys schema).Nodup) (hmem : (k, r) ∈ schema) :
    lookupVal (doMerge schema cur upd) k = (mergedEntry cur upd (k, r)).map Prod.snd := by
  induction schema with
  | nil => simp at hmem
  | cons f rest ih =>
    rw [schemaKeys, List.map_cons, List.nodup_cons] at hnd
    rw [doMerge, List.filterMap_cons]
    rcases List.mem_cons.mp hmem with heq | hmem'
    · subst heq
      cases he : mergedEntry cur upd (k, r) with
      | none =>
        have h0 : lookupVal (doMerge rest cur upd) k = none :=
          lookupVal_doMerge_not_mem hnd.1
        simpa [doMerge] using h0
      | some e =>
        have hk := mergedEntry_key he
        rw [lookupVal, if_pos hk]
        simp [he]
    · have hkne : f.1 ≠ k := by
        intro hkeq
        apply hnd.1
        rw [hkeq]
        exact List.mem_map.mpr ⟨(k, r), hmem', rfl⟩
      cases he : mergedEntry cur upd f with
      | none => exact ih hnd.2 hmem'
      | some e =>
        have hk := mergedEntry_key he
        rw [lookupVal, if_neg (by rw [hk]; exact hkne)]
        exact ih hnd.2 hmem'

theorem reducerOf_mem {schema : List (String × Reducer)} {k : String} {r : Reducer}
    (hnd : (schemaKeys schema).Nodup) (hmem : (k, r) ∈ schema) :
    reducerOf schema k = some r := by
  induction schema with
  | nil => simp at hmem
  | cons f rest ih =>
    rw [schemaKeys, List.map_cons, List.nodup_cons] at hnd
    rcases List.mem_cons.mp hmem with heq | hmem'
    · subst heq
      simp [reducerOf]
    · have hkne : f.1 ≠ k := by
        intro hkeq
        apply hnd.1
        rw [hkeq]
        exact List.mem_map.mpr ⟨(k, r), hmem', rfl⟩
      rw [reducerOf, List.find?]
      rw [show (f.1 == k) = false by simpa using hkne]
      exact ih hnd.2 hmem'

theorem lookupVal_some_mem {l : List (String × Value)} {k : String} {v : Value}
    (h : lookupVal l k = some v) : (k, v) ∈ l := by
  induction l with
  | nil => simp [lookupVal] at h
  | cons kv rest ih =>
    rw [lookupVal] at h
    by_cases hk : kv.1 = k
    · rw [if_pos hk] at h
      rcases kv with ⟨k1, v1⟩
      simp only at hk h
      injection h with h2
      subst hk
      subst h2
      exact List.mem_cons_self _ _
    · rw [if_neg hk] at h
      exact List.mem_cons.mpr (Or.inr (ih h))

theorem doMerge_congr {schema : List (String × Reducer)}
    {c1 c2 u1 u2 : List (String × Value)}
    (h : ∀ f ∈ schema, mergedEntry c1 u1 f = mergedEntry c2 u2 f) :
    doMerge schema c1 u1 = doMerge schema c2 u2 := by
  induction schema with
  | nil => rfl
  | cons f rest ih =>
    rw [doMerge, List.filterMap_cons, doMerge, List.filterMap_cons]
    rw [h f (List.mem_cons_self f rest)]
    have ihr : doMerge rest c1 u1 = doMerge rest c2 u2 :=
      ih fun g hg => h g (List.mem_cons.mpr (Or.inr hg))
    rw [doMerge, doMerge] at ihr
    rw [ihr]

theorem doMerge_overwrite_idem {schema : List (String × Reducer)}
    {cur upd : List (String × Value)}
    (hnd : (schemaKeys schema).Nodup)
    (hov : ∀ kv ∈ upd, reducerOf schema kv.1 = some Reducer.overwrite) :
    doMerge schema (doMerge schema cur upd) upd = doMerge schema cur upd := by
  apply doMerge_congr
  intro f hf
  cases hu : lookupVal upd f.1 with
  | some v =>
    have hmem := lookupVal_some_mem hu
    have hred := hov _ hmem
    have hred2 : reducerOf schema f.1 = some f.2 := reducerOf_mem hnd hf
    rw [hred] at hred2
    have hfo : f.2 = Reducer.overwrite := (Option.some.inj hred2).symm
    simp [mergedEntry, hu, hfo, mergeVals]
  | none =>
    rw [mergedEntry, hu, mergedEntry, hu]
    rw [lookupVal_doMerge (r := f.2) hnd (by cases f; exact hf)]
    rw [mergedEntry, hu]
    cases lookupVal cur f.1 <;> simp

theorem doMerge_append_step {schema : List (String × Reducer)}
    {cur : List (String × Value)} {k : String} {xs : List Value}
    (ys : List Value) (hnd : (schemaKeys schema).Nodup)
    (hmem : (k, Reducer.append) ∈ schema)
    (hcur : lookupVal cur k = some (Value.list xs)) :
    lookupVal (doMerge schema cur [(k, Value.list ys)]) k
      = some (Value.list (xs ++ ys)) := by
  rw [lookupVal_doMerge hnd hmem]
  simp [mergedEntry, lookupVal, hcur, mergeVals, asSeq]

/-! ## Claim theorems -/

/-- C1 (corrected): invoking the countdown graph with initial state
number = 57, history = [] terminates with final number 0 and final history
52,47,42,37,32,27,22,17,12,7,6,5,4,3,2,1,0 (fast minus-5 steps while the
number exceeds 10, then minus-1 steps down to 0); that history has length
17, not 16 as the claim states. -/
theorem claim1_countdown_from_57 :
    runCountdown ⟨57, []⟩ =
      ⟨0, [52, 47, 42, 37, 32, 27, 22, 17, 12, 7, 6, 5, 4, 3, 2, 1, 0]⟩ ∧
    (runCountdown ⟨57, []⟩).history.length = 17 := by
  refine ⟨runCountdown_57, ?_⟩
  rw [runCountdown_57]
  decide

/-- C1 counterexample: the final history of the run from 57 has length 17,
so the claim's asserted final history length 16 is false. -/
theorem claim1_counterexample :
    (runCountdown ⟨57, []⟩).history.length ≠ 16 := by
  rw [runCountdown_57]
  decide

/-- C2 (corrected): for every integer N > 10 and every initial history, the
countdown run performs exactly ceil((N-10)/5) + (N - 5 * ceil((N-10)/5))
steps, each appending one history entry; for integer N > 10 the ceiling
ceil((N-10)/5) equals (N.toNat - 6) / 5 in natural-number division.  (The
claimed count ceil((N-10)/5) + 10 is wrong whenever the fast phase lands
below 10.) -/
theorem claim2_step_count (N : Int) (hist : List Int) (h : 10 < N) :
    (runCountdown ⟨N, hist⟩).history.length =
      hist.length +
        ((N.toNat - 6) / 5 + (N.toNat - 5 * ((N.toNat - 6) / 5))) := by
  have hh := runCountdown_history ⟨N, hist⟩
  rw [hh]
  have hc : countSteps (⟨N, hist⟩ : CountdownState).number =
      (N.toNat - 6) / 5 + (N.toNat - 5 * ((N.toNat - 6) / 5)) :=
    countSteps_closed h
  rw [List.length_append, traceFrom_length, hc]

theorem claim2_witness :
    (runCountdown ⟨57, []⟩).history.length =
      ([] : List Int).length +
        (((57 : Int).toNat - 6) / 5 +
          ((57 : Int).toNat - 5 * (((57 : Int).toNat - 6) / 5))) :=
  claim2_step_count 57 [] (by norm_num)

/-- C2 counterexample: from N = 57 the run takes 17 steps, but the claimed
formula ceil((57-10)/5) + 10 gives 20. -/
theorem claim2_counterexample :
    (runCountdown ⟨57, []⟩).history.length ≠ (57 - 10 + 4) / 5 + 10 := by
  rw [runCountdown_57]
  decide

/-- C3 (confirmed): the countdown router returns the subtract-five node
exactly when number > 10, the subtract-one node exactly when
0 < number ≤ 10, and END exactly when number ≤ 0; in particular the
boundary value 10 routes to subtract-one, and the unnamed example's
`routingFunction` routes identically. -/
theorem claim3_router_boundaries (s : CountdownState) :
    (routeCountdown s = .subtract_five ↔ 10 < s.number) ∧
    (routeCountdown s = .subtract_one ↔ 0 < s.number ∧ s.number ≤ 10) ∧
    (routeCountdown s = .end_ ↔ s.number ≤ 0) ∧
    routingFunction s = routeCountdown s ∧
    (s.number = 10 → routeCountdown s = .subtract_one) := by
  unfold routeCountdown routingFunction
  split_ifs <;> simp_all <;> omega

theorem claim3_witness :
    routeCountdown ⟨10, []⟩ = .subtract_one :=
  (claim3_router_boundaries ⟨10, []⟩).2.2.2.2 rfl

/-- C7 (confirmed): for every initial integer value of `number` (and any
initial history) the countdown invocation terminates: every engine step
strictly decreases `number`, `number.toNat` steps of fuel suffice for the
loop (total by well-founded recursion) to finish, and the router returns
END on the final state. -/
theorem claim7_termination (s : CountdownState) :
    (∀ t, stepCountdown s = some t → t.number < s.number) ∧
    runFuel s.number.toNat s = some (runCountdown s) ∧
    routeCountdown (runCountdown s) = .end_ := by
  refine ⟨?_, runFuel_complete _ s le_rfl, ?_⟩
  · intro t ht
    by_cases h1 : s.number > 10
    · simp [stepCountdown, routeCountdown, h1] at ht
      rw [← ht]
      simp only [subtractFive]
      omega
    · by_cases h2 : s.number > 0
      · simp [stepCountdown, routeCountdown, h1, h2] at ht
        rw [← ht]
        simp only [subtractOne]
        omega
      · simp [stepCountdown, routeCountdown, h1, h2] at ht
  · have hn := runCountdown_nonpos s
    unfold routeCountdown
    rw [if_neg (by omega), if_neg (by omega)]

theorem claim7_witness :
    (subtractOne ⟨3, []⟩).number < (3 : Int) ∧
    runFuel (3 : Int).toNat ⟨3, []⟩ = some (runCountdown ⟨3, []⟩) :=
  ⟨(claim7_termination ⟨3, []⟩).1 (subtractOne ⟨3, []⟩) rfl,
    (claim7_termination ⟨3, []⟩).2.1⟩

/-- C10 (confirmed): for every initial state with a positive number, the
final state's number is exactly 0 and the final history is the initial
history extended by one entry per step (`countSteps` many); the last
appended entry equals the final number, 0. -/
theorem claim10_final_state (s : CountdownState) (h : 0 < s.number) :
    (runCountdown s).number = 0 ∧
    (runCountdown s).history = s.history ++ traceFrom s.number ∧
    (traceFrom s.number).length = countSteps s.number ∧
    (traceFrom s.number).getLast? = some ((runCountdown s).number) := by
  have h0 := runCountdown_number_pos s h
  refine ⟨h0, runCountdown_history s, traceFrom_length _, ?_⟩
  rw [h0]
  exact traceFrom_getLast h

theorem claim10_witness :
    (runCountdown ⟨3, [7]⟩).number = 0 :=
  (claim10_final_state ⟨3, [7]⟩ (by decide)).1

/-- The result message of a successful tool call carries the originating
call's id. -/
theorem runToolCall_id {c : ToolCall} {r : ToolResultMessage}
    (h : runToolCall c = .ok r) : r.tool_call_id = c.id := by
  unfold runToolCall at h
  split_ifs at h
  · rcases ha : getNumberArg c.args "a" with _ | a
    · rw [ha] at h
      simp at h
    · rw [ha] at h
      rcases hb : getNumberArg c.args "b" with _ | b
      · rw [hb] at h
        simp at h
      · rw [hb] at h
        simp only [Except.ok.injEq] at h
        rw [← h]
  · rcases ha : getNumberArg c.args "a" with _ | a
    · rw [ha] at h
      simp at h
    · rw [ha] at h
      rcases hb : getNumberArg c.args "b" with _ | b
      · rw [hb] at h
        simp at h
      · rw [hb] at h
        simp only [Except.ok.injEq] at h
        rw [← h]

/-- C4 (confirmed): the agent-loop router returns the tools node exactly
when the last message carries a non-empty tool-call list; it returns END
when the list is empty or the field is absent, and always returns one of
the two. -/
theorem claim4_agent_router (messages : List ChatMessage) (h : messages ≠ []) :
    (shouldContinue messages h = .tools ↔
      ∃ calls, (messages.getLast h).tool_calls = some calls ∧ calls ≠ []) ∧
    ((messages.getLast h).tool_calls = none → shouldContinue messages h = .end_) ∧
    (∀ calls, (messages.getLast h).tool_calls = some calls → calls = [] →
      shouldContinue messages h = .end_) ∧
    (shouldContinue messages h = .tools ∨ shouldContinue messages h = .end_) := by
  unfold shouldContinue
  cases hc : (messages.getLast h).tool_calls with
  | none =>
    simp only [hc]
    simp
  | some calls =>
    simp only [hc]
    by_cases hl : calls = []
    · subst hl
      simp
    · simp [hl]

theorem claim4_witness :
    shouldContinue [⟨"hi", none⟩] (by simp) = .end_ :=
  (claim4_agent_router [⟨"hi", none⟩] (by simp)).2.1 rfl

/-- C5 (confirmed): tool dispatch returns exactly one result message per
requested call, in request order, each tagged with its originating call id;
concretely, dispatching add(2,3) then subtract(10,4) yields the results
5 and 6 in that order. -/
theorem claim5_tool_dispatch :
    toolNodeDispatch
        [⟨"add", [("a", .int 2), ("b", .int 3)], "call_1"⟩,
         ⟨"subtract", [("a", .int 10), ("b", .int 4)], "call_2"⟩] =
      .ok [⟨.int 5, "call_1"⟩, ⟨.int 6, "call_2"⟩] ∧
    ∀ calls results, toolNodeDispatch calls = .ok results →
      results.length = calls.length ∧
      results.map (fun r => r.tool_call_id) = calls.map (fun c => c.id) := by
  constructor
  · rfl
  · intro calls
    induction calls with
    | nil =>
      intro results hok
      simp [toolNodeDispatch] at hok
      simp [← hok]
    | cons c rest ih =>
      intro results hok
      rw [toolNodeDispatch] at hok
      cases hr : runToolCall c with
      | error e => rw [hr] at hok; cases hok
      | ok r =>
        rw [hr] at hok
        cases hd : toolNodeDispatch rest with
        | error e => rw [hd] at hok; cases hok
        | ok rs =>
          rw [hd] at hok
          have hres : r :: rs = results := by
            simpa using hok
          obtain ⟨hlen, hmap⟩ := ih rs hd
          subst hres
          refine ⟨by simp [hlen], ?_⟩
          simp [hmap, runToolCall_id hr]

theorem claim5_witness :
    ([⟨Value.int 5, "call_1"⟩, ⟨Value.int 6, "call_2"⟩] :
        List ToolResultMessage).map (fun r => r.tool_call_id) =
      ([⟨"add", [("a", .int 2), ("b", .int 3)], "call_1"⟩,
        ⟨"subtract", [("a", .int 10), ("b", .int 4)], "call_2"⟩] :
        List ToolCall).map (fun c => c.id) :=
  (claim5_tool_dispatch.2 _ _ claim5_tool_dispatch.1).2

/-- C6 (confirmed): a node's returned update containing a field not
declared in the graph's schema makes the invocation abort with a
SchemaViolation, and the error carries the previously merged state
unchanged — no partial mutation happens on the failed step. -/
theorem claim6_schema_violation {schema : List (String × Reducer)}
    (st : List (String × Value))
    (node : List (String × Value) → List (String × Value))
    (rest : List (List (String × Value) → List (String × Value)))
    (hbad : ∃ kv ∈ node st, reducerOf schema kv.1 = none) :
    invokeSeq schema (node :: rest) st = .error ("SchemaViolation", st) := by
  obtain ⟨kv, hmem, hkv⟩ := hbad
  have hmc : mergeChecked schema st (node st) = .error "SchemaViolation" := by
    rw [mergeChecked, if_neg]
    intro hall
    have := List.all_eq_true.mp hall kv hmem
    rw [hkv] at this
    cases this
  simp only [invokeSeq, hmc]

theorem claim6_witness :
    invokeSeq [("text", .overwrite), ("names", .overwrite), ("people", .overwrite)]
        [fun _ => [("bogus", Value.int 1)]]
        [("text", Value.str "The team includes Alice.")] =
      .error ("SchemaViolation", [("text", Value.str "The team includes Alice.")]) :=
  claim6_schema_violation _ _ _ ⟨("bogus", Value.int 1), by simp, rfl⟩

/-- C8 (confirmed): for an update touching only overwrite-reducer fields,
the checked merge succeeds and merging the same update twice in sequence
yields the same state as merging it once. -/
theorem claim8_overwrite_idempotent {schema : List (String × Reducer)}
    (cur upd : List (String × Value))
    (hnd : (schemaKeys schema).Nodup)
    (hov : ∀ kv ∈ upd, reducerOf schema kv.1 = some Reducer.overwrite) :
    mergeChecked schema cur upd = .ok (doMerge schema cur upd) ∧
    mergeChecked schema (doMerge schema cur upd) upd =
      .ok (doMerge schema cur upd) := by
  have hall : upd.all (fun kv => (reducerOf schema kv.1).isSome) = true := by
    rw [List.all_eq_true]
    intro kv hkv
    simp [hov kv hkv]
  constructor
  · rw [mergeChecked, if_pos hall]
  · rw [mergeChecked, if_pos hall, doMerge_overwrite_idem hnd hov]

theorem claim8_witness :
    mergeChecked [("number", .overwrite), ("history", .overwrite)]
        (doMerge [("number", .overwrite), ("history", .overwrite)]
          [("number", Value.int 57), ("history", Value.list [])]
          [("number", Value.int 52)])
        [("number", Value.int 52)] =
      .ok (doMerge [("number", .overwrite), ("history", .overwrite)]
        [("number", Value.int 57), ("history", Value.list [])]
        [("number", Value.int 52)]) :=
  (claim8_overwrite_idempotent _ _ (by decide) (by decide)).2

/-- C9 (confirmed): on an append-reducer field holding the sequence xs,
merging the one-element update [a] and then the one-element update [b]
yields the same field value as merging the single combined update [a, b]:
the current sequence extended by a then b, in encounter order, with no
deduplication. -/
theorem claim9_append_assoc (schema : List (String × Reducer))
    (cur : List (String × Value)) (k : String) (xs : List Value) (a b : Value)
    (hnd : (schemaKeys schema).Nodup)
    (hmem : (k, Reducer.append) ∈ schema)
    (hcur : lookupVal cur k = some (Value.list xs)) :
    lookupVal (doMerge schema (doMerge schema cur [(k, Value.list [a])])
        [(k, Value.list [b])]) k
      = lookupVal (doMerge schema cur [(k, Value.list [a, b])]) k ∧
    lookupVal (doMerge schema cur [(k, Value.list [a, b])]) k
      = some (Value.list (xs ++ [a, b])) := by
  have h1 := doMerge_append_step [a] hnd hmem hcur
  have h2 := doMerge_append_step [b] hnd hmem h1
  have h3 := doMerge_append_step [a, b] hnd hmem hcur
  refine ⟨?_, h3⟩
  rw [h2, h3]
  simp

theorem claim9_witness :
    lookupVal (doMerge [("messages", .append)]
        (doMerge [("messages", .append)]
          [("messages", Value.list [Value.str "q"])]
          [("messages", Value.list [Value.str "m1"])])
        [("messages", Value.list [Value.str "m2"])]) "messages"
      = some (Value.list ([Value.str "q"] ++ [Value.str "m1", Value.str "m2"])) := by
  have h := claim9_append_assoc [("messages", Reducer.append)]
    [("messages", Value.list [Value.str "q"])]
    "messages" [Value.str "q"] (Value.str "m1") (Value.str "m2")
    (by decide) (by decide) rfl
  rw [h.1, h.2]

end LangGraphExamples
